import Mathlib

/-
Verification development for the pwiz controlled-vocabulary code generator
(cvgen.cpp) and the C++ lookup code it emits (cv.hpp / cv.cpp).

Modelling conventions:
  - C++ strings are Lean `String` (a wrapper around `List Char`); the
    character-level algorithms work on `List Char`.
  - `std::map` is modelled as an association list together with lookup,
    assign and get-or-insert-default operations; `operator[]` on a missing
    key inserts a default-constructed value, exactly as in C++.  Insertion
    position in the list differs from std::map's key ordering, but every
    property proved below depends only on lookup results or on lists
    (such as the emitted `cvids_` vector) whose order the model reproduces
    exactly.
  - machine integers: `CVID` is a C++ enum with a negative enumerator, so
    its underlying type is 32-bit `int`; we use `Int` and apply an explicit
    wrap (`toInt32`) where the emitted code casts.  `strtoul` computes in
    64-bit `unsigned long` (the library's build target); overflow clamps to
    `ULONG_MAX` and sets `errno`, and the result is truncated mod 2^32 by
    the cast to `unsigned int`.
  - the emitted accessors read and mutate process-wide state
    (`initialized_`, `infoMap_`, `cvMap_`, `cvids_`); the model passes a
    `CVState` value explicitly and returns the updated state.
-/

namespace Cvgen

/-! Association-list model of std::map. -/

/-- Lookup in an association-list map (std::map::find). -/
def mapFind {K V : Type} [DecidableEq K] : List (K × V) → K → Option V
  | [], _ => none
  | (k, v) :: rest, q => if q = k then some v else mapFind rest q

/-- Assignment `m[k] = v` (std::map::operator[] followed by assignment):
replaces the value at `k` if present, otherwise inserts the pair. -/
def mapSet {K V : Type} [DecidableEq K] : List (K × V) → K → V → List (K × V)
  | [], k, v => [(k, v)]
  | (k0, v0) :: rest, k, v =>
    if k = k0 then (k0, v) :: rest else (k0, v0) :: mapSet rest k v

/-- Read `m[k]` (std::map::operator[]): returns the stored value, inserting
a default-constructed value first when the key is absent. -/
def mapGetOrInsert {K V : Type} [DecidableEq K] (dflt : V) (m : List (K × V)) (k : K) :
    V × List (K × V) :=
  match mapFind m k with
  | some v => (v, m)
  | none => (dflt, m ++ [(k, dflt)])

/-- Mutation through `m[k]` (std::map::operator[] followed by a member
mutation): applies `f` to the stored value, inserting a default first when
the key is absent. -/
def mapModify {K V : Type} [DecidableEq K] (dflt : V) : List (K × V) → K → (V → V) → List (K × V)
  | [], k, f => [(k, f dflt)]
  | (k0, v0) :: rest, k, f =>
    if k = k0 then (k0, f v0) :: rest else (k0, v0) :: mapModify dflt rest k f

/-! Model of boost::algorithm::replace_all and cvgen's escape_copy.

boost replace_all scans left to right, replaces each non-overlapping
occurrence of the pattern and resumes scanning after the replacement (the
replacement text is not rescanned).  The recursion is driven by a fuel
argument equal to the input length so that it is structural and evaluates
inside the kernel; fuel is never exhausted for fuel ≥ input length. -/

def replaceAllAux (pat repl : List Char) : Nat → List Char → List Char
  | 0, s => s
  | _ + 1, [] => []
  | fuel + 1, c :: rest =>
    if pat ≠ [] ∧ pat.isPrefixOf (c :: rest) = true then
      repl ++ replaceAllAux pat repl fuel (rest.drop (pat.length - 1))
    else
      c :: replaceAllAux pat repl fuel rest

/-- Replacement of every occurrence of `pat` by `repl`
(boost::algorithm::replace_all; a no-op for an empty pattern, as in boost). -/
def replaceAll (pat repl s : List Char) : List Char :=
  replaceAllAux pat repl s.length s

/-- One escape step of cvgen's escape_copy:
`bal::replace_all(copy, "\c", "\\c")` for a single escaped character `c`. -/
def escapePair (c : Char) (s : List Char) : List Char :=
  replaceAll ['\\', c] ['\\', '\\', c] s

/-- Characters whose backslash escapes cvgen doubles, in the exact order of
the replace_all calls in escape_copy: `! : , ( ) [ ] { }`. -/
def escapeChars : List Char :=
  ['!', ':', ',', '(', ')', '[', ']', '\x7b', '\x7d']

/-- Character-list core of escape_copy: the nine replace_all passes applied
in source order. -/
def escapeList (s : List Char) : List Char :=
  escapeChars.foldl (fun acc c => escapePair c acc) s

/-- Model of cvgen's escape_copy on C++ strings. -/
def escape_copy (s : String) : String :=
  String.mk (escapeList s.data)

/-- Classification of ASCII punctuation, as C `ispunct` in the "C" locale
(used only to state the spec's phrase "backslash-prefixed punctuation"). -/
def isPunctChar (c : Char) : Bool :=
  ("!\"#$%&\x27()*+,-./:;<=>?@[\\]^_\x60\x7b|\x7d~").data.contains c

/-! Version extraction from OBO header lines (writeCpp's per-OBO loop).

The loop runs over the header lines in order; for each line it first tries
the anchored regex `.*?[^-]version: (\S+)` (boost regex_match, so the whole
line must match) and on success stores the capture and breaks; otherwise,
only while no version has been found yet, it tries `\s*date: (\S+).*` and
on success stores that capture (without breaking).  If the loop ends with
an empty version, the literal "unknown" is used.

The two regexes are modelled directly.  `[^-]` matches any character other
than a dash (including a newline); `.` and the lazy `.*?` match any
character except a newline; `\s`/whitespace is the C isspace class. -/

/-- C `isspace` classification (the regex classes `\s` and `\S`). -/
def isSpaceChar (c : Char) : Bool :=
  c = ' ' || c = '\t' || c = '\n' || c = '\x0b' || c = '\x0c' || c = '\r'

/-- Full-line match of `.*?[^-]version: (\S+)` against the suffix starting
at each scan position: the head character plays the role of `[^-]`, the
literal `version: ` must follow, and the capture `(\S+)` must be a nonempty
whitespace-free run extending to the end of the line.  On failure the head
character is absorbed into the lazy `.*?` (which cannot match a newline)
and scanning continues. -/
def vMatchAt : List Char → Option (List Char)
  | [] => none
  | c :: rest =>
    if c ≠ '-' ∧ ("version: ").data.isPrefixOf rest = true ∧
        rest.drop 9 ≠ [] ∧ (rest.drop 9).all (fun x => !isSpaceChar x) = true then
      some (rest.drop 9)
    else if c = '\n' then none
    else vMatchAt rest

/-- Capture of the `version:` regex on one header line, if the line matches. -/
def versionMatch (line : String) : Option String :=
  (vMatchAt line.data).map String.mk

/-- Capture of `\s*date: (\S+).*` on one header line: leading whitespace,
the literal `date: `, then a nonempty whitespace-free capture; the trailing
`.*` matches the rest provided it contains no newline. -/
def dateMatch (line : String) : Option String :=
  let s := line.data.dropWhile (fun c => isSpaceChar c)
  if ("date: ").data.isPrefixOf s = true then
    let rest := s.drop 6
    let w := rest.takeWhile (fun c => !isSpaceChar c)
    if w = [] then none
    else if (rest.drop w.length).all (fun c => c ≠ '\n') then some (String.mk w)
    else none
  else none

/-- Header scan loop of writeCpp: `acc` is the `version` variable; a
version-regex match returns immediately (the `break`), a date-regex match
is stored only while `acc` is still empty. -/
def versionLoop : List String → String → String
  | [], acc => acc
  | line :: rest, acc =>
    match versionMatch line with
    | some v => v
    | none =>
      if acc = "" then
        match dateMatch line with
        | some v => versionLoop rest v
        | none => versionLoop rest acc
      else versionLoop rest acc

/-- Version string emitted for one OBO header ("unknown" when neither
regex ever matches). -/
def extractVersion (header : List String) : String :=
  let v := versionLoop header ""
  if v = "" then "unknown" else v

/-! Data model: the parsed Term and OBO structures, restricted to the
fields cvgen.cpp reads (obo.hpp itself only declares these carriers). -/

/-- Ontology term as consumed by cvgen: numeric accession `id`, owning
namespace tag `pfx` (Term::prefix), name, definition (Term::def), exact
synonyms, and local-id references to is-a and part-of parents. -/
structure Term where
  id : Nat
  pfx : String
  name : String
  defn : String
  exactSynonyms : List String
  parentsIsA : List Nat
  parentsPartOf : List Nat
deriving DecidableEq

/-- One parsed OBO file: namespace tag (OBO::prefix), raw header lines and
the terms in source order. -/
structure OBO where
  pfx : String
  header : List String
  terms : List Term
deriving DecidableEq

/-! Identifier allocation (cvgen's enumValue). -/

/-- Block size separating the namespaces' code ranges
(`const size_t enumBlockSize_ = 100000000`). -/
def enumBlockSize_ : Nat := 100000000

/-- Global code of a term: `term.id + (enumBlockSize_ * index)` where
`index` is the position of the term's OBO in the input file list. -/
def enumValue (term : Term) (index : Nat) : Nat :=
  term.id + enumBlockSize_ * index

/-! Emitted static tables (writeCpp). -/

/-- Decimal rendering of the local id padded with `setw(7)`/`setfill('0')`. -/
def pad7 (n : Nat) : String :=
  let s := toString n
  String.mk (List.replicate (7 - s.length) '0') ++ s

/-- Emitted id string `"<prefix>:<7-digit localId>"`. -/
def termIdString (t : Term) : String :=
  t.pfx ++ ":" ++ pad7 t.id

/-- One row of the emitted `termInfos_[]` array. -/
structure TermInfoRow where
  cvid : Int
  id : String
  name : String
  defn : String
deriving DecidableEq

/-- Sentinel first row `{CVID_Unknown, "??:0000000", "CVID_Unknown",
"CVID_Unknown"}`. -/
def unknownRow : TermInfoRow :=
  ⟨-1, "??:0000000", "CVID_Unknown", "CVID_Unknown"⟩

/-- Row emitted for one term: its enum value, id string, and the
escape_copy-processed name and definition. -/
def termInfoRow (t : Term) (index : Nat) : TermInfoRow :=
  ⟨Int.ofNat (enumValue t index), termIdString t, escape_copy t.name, escape_copy t.defn⟩

/-- Pairing of each OBO with its position in the input list
(`obo - obos.begin()` in the iteration). -/
def withIdx (i : Nat) : List OBO → List (Nat × OBO)
  | [] => []
  | o :: rest => (i, o) :: withIdx (i + 1) rest

/-- Emitted `termInfos_[]`: the sentinel row, then one row per term of each
OBO in source order.  Synonyms contribute no rows. -/
def termInfos_ (obos : List OBO) : List TermInfoRow :=
  unknownRow :: (withIdx 0 obos).flatMap fun p => p.2.terms.map fun t => termInfoRow t p.1

/-- Emitted `relationsIsA_[]`: child code paired with parent code for every
is-a reference.  The parent enumerator emitted by cvgen is the one of
`termMaps[index][j]`, the term of the same OBO with local id `j`; its enum
value is therefore `j + enumBlockSize_ * index` (cvgen dereferences a null
pointer when the reference is dangling, so the model is faithful exactly on
inputs whose references resolve). -/
def relationsIsA_ (obos : List OBO) : List (Int × Int) :=
  (withIdx 0 obos).flatMap fun p => p.2.terms.flatMap fun t =>
    t.parentsIsA.map fun j =>
      (Int.ofNat (enumValue t p.1), Int.ofNat (j + enumBlockSize_ * p.1))

/-- Emitted `relationsPartOf_[]`, built like `relationsIsA_` from the
part-of references. -/
def relationsPartOf_ (obos : List OBO) : List (Int × Int) :=
  (withIdx 0 obos).flatMap fun p => p.2.terms.flatMap fun t =>
    t.parentsPartOf.map fun j =>
      (Int.ofNat (enumValue t p.1), Int.ofNat (j + enumBlockSize_ * p.1))

/-- Emitted `relationsExactSynonym_[]`: the `{CVID_Unknown, "Unknown"}` row
followed by one (term code, synonym) pair for every exact synonym of every
term of every OBO.  Note: writeCpp applies no prefix filter here. -/
def relationsExactSynonym_ (obos : List OBO) : List (Int × String) :=
  (-1, "Unknown") :: (withIdx 0 obos).flatMap fun p => p.2.terms.flatMap fun t =>
    t.exactSynonyms.map fun s => (Int.ofNat (enumValue t p.1), s)

/-- Emitted `oboPrefixes_[]`: the namespace tags in input order. -/
def oboPfxs_ (obos : List OBO) : List String :=
  obos.map OBO.pfx

/-- C `isalnum` transform used for enum identifiers
(`toAllowableChar`). -/
def toAllowableChar (a : Char) : Char :=
  if a.isAlphanum then a else '_'

/-- Enum identifier `enumName(prefix, name)`:
prefix ++ "_" ++ name with non-alphanumerics replaced by '_'. -/
def enumNameOf (pfx name : String) : String :=
  pfx ++ "_" ++ String.mk (name.data.map toAllowableChar)

/-- One enumerator of the emitted CVID enumeration (writeHpp). -/
structure EnumEntry where
  name : String
  value : Int
  isSynonym : Bool
deriving DecidableEq

/-- Enumerators of the emitted CVID enum: `CVID_Unknown = -1`, then per
term its enumerator, followed — only when the owning OBO's prefix is
"MS" — by one alias enumerator per exact synonym carrying the same value. -/
def genEnumEntries (obos : List OBO) : List EnumEntry :=
  ⟨"CVID_Unknown", -1, false⟩ ::
    ((withIdx 0 obos).flatMap fun p => p.2.terms.flatMap fun t =>
      ⟨enumNameOf t.pfx t.name, Int.ofNat (enumValue t p.1), false⟩ ::
        (if p.2.pfx = "MS" then
          t.exactSynonyms.map fun s =>
            ⟨enumNameOf t.pfx s, Int.ofNat (enumValue t p.1), true⟩
        else []))

/-- Modelled from the spec: "every term's global code in generation order,
synonyms excluded" — the sequence `allCodes()` is claimed to return.  Used
to compare the emitted `cvids_` vector against the spec's wording. -/
def allTermCodes (obos : List OBO) : List Int :=
  (withIdx 0 obos).flatMap fun p => p.2.terms.map fun t => Int.ofNat (enumValue t p.1)

/-! Runtime model: the global state of the emitted cv.cpp and its lazily
populated maps. -/

/-- Emitted `struct CV`: id tag, URI, full name and version, all
default-constructed to empty strings. -/
structure CVRec where
  id : String
  URI : String
  fullName : String
  version : String
deriving DecidableEq

/-- Default-constructed CV (all four strings empty). -/
def defaultCV : CVRec := ⟨"", "", "", ""⟩

/-- Emitted `struct CVTermInfo`.  The default constructor sets
`cvid = (CVID)-1` and leaves the strings empty and the lists empty. -/
structure CVTermInfoRec where
  cvid : Int
  id : String
  name : String
  defn : String
  parentsIsA : List Int
  parentsPartOf : List Int
  exactSynonyms : List String
deriving DecidableEq

/-- Default-constructed CVTermInfo: `cvid = -1`, everything else empty. -/
def defaultTermInfo : CVTermInfoRec := ⟨-1, "", "", "", [], [], []⟩

/-- Process-wide mutable state of the emitted cv.cpp: the `initialized_`
flag, `infoMap_`, `cvMap_` and the `cvids_` vector. -/
structure CVState where
  initialized : Bool
  infoMap : List (Int × CVTermInfoRec)
  cvMap : List (String × CVRec)
  cvids : List Int
deriving DecidableEq

/-- Initial program state: flag false, maps and vector empty. -/
def initState : CVState := ⟨false, [], [], []⟩

/-- First loop of the emitted `initialize()`: for each `termInfos_` row,
build a CVTermInfo with empty relation lists, assign it through
`infoMap_[cvid]` and push the cvid onto `cvids_`. -/
def initTermRows (rows : List TermInfoRow) (st : CVState) : CVState :=
  rows.foldl
    (fun s row =>
      { s with
        infoMap := mapSet s.infoMap row.cvid ⟨row.cvid, row.id, row.name, row.defn, [], [], []⟩,
        cvids := s.cvids ++ [row.cvid] })
    st

/-- Second loop: `infoMap_[first].parentsIsA.push_back(second)`. -/
def pushIsA (m : List (Int × CVTermInfoRec)) (pr : Int × Int) : List (Int × CVTermInfoRec) :=
  mapModify defaultTermInfo m pr.1 fun r => { r with parentsIsA := r.parentsIsA ++ [pr.2] }

/-- Third loop: `infoMap_[first].parentsPartOf.push_back(second)`. -/
def pushPartOf (m : List (Int × CVTermInfoRec)) (pr : Int × Int) : List (Int × CVTermInfoRec) :=
  mapModify defaultTermInfo m pr.1 fun r => { r with parentsPartOf := r.parentsPartOf ++ [pr.2] }

/-- Fourth loop: `infoMap_[first].exactSynonyms.push_back(second)`. -/
def pushSyn (m : List (Int × CVTermInfoRec)) (pr : Int × String) : List (Int × CVTermInfoRec) :=
  mapModify defaultTermInfo m pr.1 fun r => { r with exactSynonyms := r.exactSynonyms ++ [pr.2] }

/-- Hard-coded `cvMap_` statements of the emitted `initialize()`: full
names and URIs for the MS and UO namespaces. -/
def initCvMapStatic (m : List (String × CVRec)) : List (String × CVRec) :=
  let m := mapModify defaultCV m "MS" fun c =>
    { c with fullName := "Proteomics Standards Initiative Mass Spectrometry Ontology" }
  let m := mapModify defaultCV m "MS" fun c =>
    { c with URI := "http://psidev.cvs.sourceforge.net/*checkout*/psidev/psi/psi-ms/mzML/controlledVocabulary/psi-ms.obo" }
  let m := mapModify defaultCV m "UO" fun c =>
    { c with fullName := "Unit Ontology" }
  mapModify defaultCV m "UO" fun c =>
    { c with URI := "http://obo.cvs.sourceforge.net/*checkout*/obo/obo/ontology/phenotype/unit.obo" }

/-- Per-OBO `cvMap_` statements: `cvMap_[prefix].id = prefix` and
`cvMap_[prefix].version = <extracted version>`. -/
def initCvMapPerObo (obos : List OBO) (m : List (String × CVRec)) : List (String × CVRec) :=
  obos.foldl
    (fun m o =>
      let m := mapModify defaultCV m o.pfx fun c => { c with id := o.pfx }
      mapModify defaultCV m o.pfx fun c => { c with version := extractVersion o.header })
    m

/-- Model of the emitted `initialize()` routine (renamed because the plain
source name is unavailable here): populates `infoMap_` and `cvids_` from
the four static tables, fills `cvMap_`, and raises the `initialized_`
flag. -/
def buildMaps (obos : List OBO) (st : CVState) : CVState :=
  let st := initTermRows (termInfos_ obos) st
  let st := { st with infoMap := (relationsIsA_ obos).foldl pushIsA st.infoMap }
  let st := { st with infoMap := (relationsPartOf_ obos).foldl pushPartOf st.infoMap }
  let st := { st with infoMap := (relationsExactSynonym_ obos).foldl pushSyn st.infoMap }
  let st := { st with cvMap := initCvMapStatic st.cvMap }
  let st := { st with cvMap := initCvMapPerObo obos st.cvMap }
  { st with initialized := true }

/-- Guard `if (!initialized_) initialize();` shared by all accessors. -/
def ensureInit (obos : List OBO) (st : CVState) : CVState :=
  if st.initialized then st else buildMaps obos st

/-- Emitted accessor `cv(const string& prefix)`:
`return cvMap_[prefix];` after ensuring initialization (operator[] inserts
an empty CV for an unknown tag). -/
def cv (obos : List OBO) (pfx : String) (st : CVState) : CVRec × CVState :=
  let st := ensureInit obos st
  let (v, m) := mapGetOrInsert defaultCV st.cvMap pfx
  (v, { st with cvMap := m })

/-- Emitted accessor `cvTermInfo(CVID cvid)`:
`return infoMap_[cvid];` after ensuring initialization (operator[] inserts
a default-constructed CVTermInfo for an unknown code). -/
def cvTermInfoByCVID (obos : List OBO) (cvid : Int) (st : CVState) : CVTermInfoRec × CVState :=
  let st := ensureInit obos st
  let (v, m) := mapGetOrInsert defaultTermInfo st.infoMap cvid
  (v, { st with infoMap := m })

/-- Largest `unsigned long` value of the 64-bit build target. -/
def ULONG_MAX : Nat := 2 ^ 64 - 1

/-- Numeric value of a digit run. -/
def digitsVal (l : List Char) : Nat :=
  l.foldl (fun acc c => acc * 10 + (c.toNat - '0'.toNat)) 0

/-- Outcome of `strtoul(str, &end, 10)`: the returned value, whether any
characters were converted (`end != str`), and whether `errno` was set to
ERANGE. -/
structure StrtoulResult where
  value : Nat
  converted : Bool
  rangeError : Bool
deriving DecidableEq

/-- Model of C `strtoul` base 10 on a 64-bit target: skip isspace
characters, an optional sign, then a maximal digit run.  No digits means no
conversion (value 0, `end == str`).  A value beyond ULONG_MAX clamps to
ULONG_MAX with ERANGE; a converted value following `-` is negated modulo
2^64. -/
def strtoul10 (s : List Char) : StrtoulResult :=
  let afterSpace := s.dropWhile fun c => isSpaceChar c
  let neg : Bool := match afterSpace with
    | '-' :: _ => true
    | _ => false
  let afterSign : List Char := match afterSpace with
    | '-' :: rest => rest
    | '+' :: rest => rest
    | _ => afterSpace
  let digits := afterSign.takeWhile fun c => c.isDigit
  if digits = [] then ⟨0, false, false⟩
  else
    let n := digitsVal digits
    if n > ULONG_MAX then ⟨ULONG_MAX, true, true⟩
    else ⟨if neg then (2 ^ 64 - n) % 2 ^ 64 else n, true, false⟩

/-- Emitted helper `stringToCVID`: calls strtoul, truncates the result to
`unsigned int` (mod 2^32), and throws bad_lexical_cast when either no
conversion was performed (`value == 0 && str == end`) or errno was set. -/
def stringToCVID (s : String) : Except Unit Nat :=
  let r := strtoul10 s.data
  let value := r.value % 2 ^ 32
  if (value = 0 ∧ r.converted = false) ∨ r.rangeError = true then Except.error ()
  else Except.ok value

/-- Wrap of a size_t value by the cast `(CVID)(...)` to the enum's 32-bit
signed underlying type. -/
def toInt32 (n : Nat) : Int :=
  if n % 2 ^ 32 < 2 ^ 31 then Int.ofNat (n % 2 ^ 32)
  else Int.ofNat (n % 2 ^ 32) - 2 ^ 32

/-- Failure modes of the string-accession accessor: the runtime_error
thrown when the id does not split into exactly two tokens, and the
bad_lexical_cast escaping from stringToCVID. -/
inductive LookupError where
  | formatError : LookupError
  | conversionError : LookupError
deriving DecidableEq

instance {α β : Type} [DecidableEq α] [DecidableEq β] : DecidableEq (Except α β) := fun a b =>
  match a, b with
  | Except.ok x, Except.ok y =>
    if h : x = y then isTrue (by rw [h]) else isFalse (by intro hc; cases hc; exact h rfl)
  | Except.error x, Except.error y =>
    if h : x = y then isTrue (by rw [h]) else isFalse (by intro hc; cases hc; exact h rfl)
  | Except.ok _, Except.error _ => isFalse (by intro hc; cases hc)
  | Except.error _, Except.ok _ => isFalse (by intro hc; cases hc)

/-- Tokenization `bal::split(tokens, id, bal::is_any_of(":"))`: one token
per maximal colon-free run, with empty tokens kept, so the token count is
always the number of colons plus one. -/
def splitOnColon : List Char → List (List Char)
  | [] => [[]]
  | c :: rest =>
    if c = ':' then [] :: splitOnColon rest
    else
      match splitOnColon rest with
      | [] => [[c]]
      | t :: ts => (c :: t) :: ts

/-- Emitted accessor `cvTermInfo(const string& id)`: split on every ':'
(bal::split with is_any_of(":")), demand exactly two tokens, linearly scan
`oboPrefixes_` for the first token; when found, convert the second token
via stringToCVID and recombine `index * enumBlockSize_ + value`; when not
found, keep `cvid = CVID_Unknown`; finally `return infoMap_[cvid]`. -/
def cvTermInfoByString (obos : List OBO) (idStr : String) (st : CVState) :
    Except LookupError (CVTermInfoRec × CVState) :=
  let st := ensureInit obos st
  match splitOnColon idStr.data with
  | [pre, cvidStr] =>
    match (oboPfxs_ obos).findIdx? fun q => q.data = pre with
    | none =>
      let (v, m) := mapGetOrInsert defaultTermInfo st.infoMap (-1)
      Except.ok (v, { st with infoMap := m })
    | some i =>
      match stringToCVID (String.mk cvidStr) with
      | Except.error _ => Except.error LookupError.conversionError
      | Except.ok value =>
        let cvid := toInt32 (i * enumBlockSize_ + value)
        let (v, m) := mapGetOrInsert defaultTermInfo st.infoMap cvid
        Except.ok (v, { st with infoMap := m })
  | _ => Except.error LookupError.formatError

/-- Emitted accessor `cvids()`: ensure initialization and return the
`cvids_` vector. -/
def cvids (obos : List OBO) (st : CVState) : List Int × CVState :=
  let st := ensureInit obos st
  (st.cvids, st)

/-- Success test for the string-accession accessor (no exception thrown). -/
def isOkB (r : Except LookupError (CVTermInfoRec × CVState)) : Bool :=
  match r with
  | Except.ok _ => true
  | Except.error _ => false

/-- Direct is-a parents as the emitted `cvIsA` reads them:
`cvTermInfo(child).parentsIsA`.  Reading through operator[] yields the
stored record, or a default (empty parent list) for an absent key; the
parent lists observed are therefore a pure function of the state. -/
def stParents (st : CVState) (c : Int) : List Int :=
  (mapGetOrInsert defaultTermInfo st.infoMap c).1.parentsIsA

/-- Least-fixed-point semantics of the emitted recursive `cvIsA`:
true when child equals parent, else true when some direct is-a parent of
the child reaches the parent recursively.  The recursion carries no
visited set or other cycle guard, exactly as in the emitted source (on a
cyclic graph the C++ recursion diverges; the relation here captures every
terminating run). -/
inductive cvIsA (P : Int → List Int) : Int → Int → Prop where
  | refl (x : Int) : cvIsA P x x
  | step (child p q : Int) : q ∈ P child → cvIsA P q p → cvIsA P child p

/-! Concrete two-namespace fixture used to evaluate the model at explicit
inputs (an MS ontology with two terms, the second an is-a child of the
first, and a UO ontology with one term carrying an exact synonym). -/

/-- MS term 1, carrying one exact synonym. -/
def msT1 : Term := ⟨1, "MS", "mass spectrum", "spectrum def", ["spec one"], [], []⟩

/-- MS term 2, an is-a child of local id 1. -/
def msT2 : Term := ⟨2, "MS", "scan", "scan def", [], [1], []⟩

/-- UO term 1, carrying one exact synonym. -/
def uoT1 : Term := ⟨1, "UO", "second", "time unit", ["sec"], [], []⟩

/-- MS input file whose header exercises the date fallback. -/
def msOBO : OBO := ⟨"MS", ["format-version: 1.2", "date: 01:01:2020 00:00"], [msT1, msT2]⟩

/-- UO input file with an empty header. -/
def uoOBO : OBO := ⟨"UO", [], [uoT1]⟩

/-- Input file list of the fixture: MS at block index 0, UO at index 1. -/
def testObos : List OBO := [msOBO, uoOBO]

/-- Runtime state after initialization on the fixture. -/
def testSt : CVState := buildMaps testObos initState

/-! Claim C1: allocator injectivity and round-trip. -/

/-- C1: for local ids below the block size, the allocated global code
`id + enumBlockSize_ * index` is injective across all (namespace index,
local id) pairs, and integer division and modulo by the same
`enumBlockSize_` constant recover exactly the original pair. -/
theorem claim_C1 (t1 t2 : Term) (n1 n2 : Nat)
    (h1 : t1.id < enumBlockSize_) (h2 : t2.id < enumBlockSize_) :
    (enumValue t1 n1 = enumValue t2 n2 → n1 = n2 ∧ t1.id = t2.id) ∧
    enumValue t1 n1 / enumBlockSize_ = n1 ∧ enumValue t1 n1 % enumBlockSize_ = t1.id := by
  have hdiv : ∀ (t : Term) (n : Nat), t.id < enumBlockSize_ →
      enumValue t n / enumBlockSize_ = n := by
    intro t n ht
    have hpos : 0 < enumBlockSize_ := by decide
    have hform : enumValue t n = t.id + n * enumBlockSize_ := by
      simp [enumValue, Nat.mul_comm]
    rw [hform, Nat.add_mul_div_right _ _ hpos, Nat.div_eq_of_lt ht, Nat.zero_add]
  have hmod : ∀ (t : Term) (n : Nat), t.id < enumBlockSize_ →
      enumValue t n % enumBlockSize_ = t.id := by
    intro t n ht
    simp [enumValue, Nat.add_mul_mod_self_left, Nat.mod_eq_of_lt ht]
  refine ⟨?_, hdiv t1 n1 h1, hmod t1 n1 h1⟩
  intro heq
  constructor
  · rw [← hdiv t1 n1 h1, ← hdiv t2 n2 h2, heq]
  · rw [← hmod t1 n1 h1, ← hmod t2 n2 h2, heq]

/-- Witness for C1 at a concrete pair of terms. -/
theorem claim_C1_witness :
    msT2.id < enumBlockSize_ ∧ uoT1.id < enumBlockSize_ ∧
    (enumValue msT2 0 = enumValue uoT1 1 → (0 : Nat) = 1 ∧ msT2.id = uoT1.id) ∧
    enumValue msT2 0 / enumBlockSize_ = 0 ∧ enumValue msT2 0 % enumBlockSize_ = msT2.id :=
  ⟨by decide, by decide, (claim_C1 msT2 uoT1 0 1 (by decide) (by decide)).1,
    (claim_C1 msT2 uoT1 0 1 (by decide) (by decide)).2⟩

/-! Claim C2: the generated cvIsA recursion. -/

/-- C2: the emitted `cvIsA` is true on equal codes and otherwise exactly
when some direct is-a parent of the child reaches the parent; hence it is
reflexive, holds for direct parents, and holds through two-step chains.
The relation is the least fixed point of the guard-free recursion emitted
by writeCpp (no cycle protection is modelled because none exists in the
source). -/
theorem claim_C2 (P : Int → List Int) :
    (∀ c p, cvIsA P c p ↔ c = p ∨ ∃ q ∈ P c, cvIsA P q p) ∧
    (∀ x, cvIsA P x x) ∧
    (∀ a b, b ∈ P a → cvIsA P a b) ∧
    (∀ a b c, b ∈ P a → c ∈ P b → cvIsA P a c) := by
  have hrefl : ∀ x, cvIsA P x x := fun x => cvIsA.refl x
  have hdirect : ∀ a b, b ∈ P a → cvIsA P a b := fun a b hb =>
    cvIsA.step a b b hb (cvIsA.refl b)
  refine ⟨?_, hrefl, hdirect, ?_⟩
  · intro c p
    constructor
    · intro h
      cases h with
      | refl _ => exact Or.inl rfl
      | step _ _ q hq hrec => exact Or.inr ⟨q, hq, hrec⟩
    · intro h
      rcases h with h | ⟨q, hq, hrec⟩
      · rw [h]; exact hrefl p
      · exact cvIsA.step c p q hq hrec
  · intro a b c hb hc
    exact cvIsA.step a c b hb (hdirect b c hc)

/-- Witness for C2 on the parent map read from the initialized fixture
state: code 2 is a direct child of code 1, so cvIsA relates 2 to itself,
to 1, and unfolds as claimed. -/
theorem claim_C2_witness :
    (1 : Int) ∈ stParents testSt 2 ∧ cvIsA (stParents testSt) 2 2 ∧
    cvIsA (stParents testSt) 2 1 := by
  have h : (1 : Int) ∈ stParents testSt 2 := by decide
  exact ⟨h, (claim_C2 (stParents testSt)).2.1 2,
    (claim_C2 (stParents testSt)).2.2.1 2 1 h⟩

/-! Claims C3, C4, C5: lookup fallback and error behavior of the
string-accession accessor. -/

/-- Helper: a strtoul run that converted nothing returned value 0 with no
range error (the no-digits branch is the only one with `converted =
false`). -/
theorem strtoul10_not_converted (l : List Char) (h : (strtoul10 l).converted = false) :
    strtoul10 l = ⟨0, false, false⟩ := by
  simp only [strtoul10] at h ⊢
  split at h
  · simp_all
  · split at h <;> simp_all

/-- C3 counterexample: on the fixture, the CVID overload at the
unrecognized code 999 returns the default-constructed record (empty
strings), not the sentinel's populated detail record returned for
CVID_Unknown, so the two records differ. -/
theorem claim_C3_counterexample :
    (cvTermInfoByCVID testObos 999 testSt).1 ≠ (cvTermInfoByCVID testObos (-1) testSt).1 := by
  decide

/-- C3 amended: `cvTermInfo(code)` on a code absent from the term map
returns a default-constructed record (cvid = CVID_Unknown but empty id,
name and definition), which is not the sentinel's detail record; the
string overload with a well-formed id whose tag matches no loaded
namespace does return exactly the sentinel's record, the same value
`cvTermInfo(CVID_Unknown)` returns. -/
theorem claim_C3_amended (obos : List OBO) (st : CVState) (c : Int) (s : String)
    (pre num : List Char)
    (hc : mapFind (ensureInit obos st).infoMap c = none)
    (hs : splitOnColon s.data = [pre, num])
    (hpre : (oboPfxs_ obos).findIdx? (fun q => q.data = pre) = none) :
    (cvTermInfoByCVID obos c st).1 = defaultTermInfo ∧
    cvTermInfoByString obos s st = Except.ok (cvTermInfoByCVID obos (-1) st) := by
  constructor
  · simp [cvTermInfoByCVID, mapGetOrInsert, hc]
  · simp [cvTermInfoByString, hs, hpre, cvTermInfoByCVID]

/-- Witness for C3 amended on the fixture: code 999 is absent and
"BADPREFIX" matches no namespace. -/
theorem claim_C3_amended_witness :
    (cvTermInfoByCVID testObos 999 testSt).1 = defaultTermInfo ∧
    cvTermInfoByString testObos "BADPREFIX:0000001" testSt =
      Except.ok (cvTermInfoByCVID testObos (-1) testSt) :=
  claim_C3_amended testObos testSt 999 "BADPREFIX:0000001"
    ("BADPREFIX").data ("0000001").data (by decide) (by decide) (by decide)

/-- C4 counterexample: "MS:0000001abc" has a loaded prefix and a digit
portion containing non-numeric content, yet the lookup succeeds (strtoul
parses the leading digit run and ignores the trailing junk) instead of
failing with a conversion error. -/
theorem claim_C4_counterexample :
    isOkB (cvTermInfoByString testObos "MS:0000001abc" testSt) = true ∧
    "MS" ∈ oboPfxs_ testObos ∧
    ("0000001abc").data.any (fun c => !c.isDigit) = true := by
  decide

/-- Helper: when strtoul converted some characters without overflow,
stringToCVID succeeds with the truncated value. -/
theorem stringToCVID_ok (num : List Char) (hconv : (strtoul10 num).converted = true)
    (hrange : (strtoul10 num).rangeError = false) :
    stringToCVID (String.mk num) = Except.ok ((strtoul10 num).value % 2 ^ 32) := by
  simp [stringToCVID, hconv, hrange]

/-- C4 amended: an input that does not split on ':' into exactly two
tokens always fails with the format error; an input whose prefix names a
loaded namespace fails with the conversion error exactly when strtoul
either converts no characters of the numeric portion (e.g.
"MS:notanumber") or overflows the unsigned long range with ERANGE; a
numeric portion with a non-overflowing leading digit run followed by other
content (e.g. "MS:0000001abc") converts the leading run and the lookup
succeeds without error. -/
theorem claim_C4_amended (obos : List OBO) (st : CVState) (s : String)
    (pre num : List Char) (i : Nat) :
    ((splitOnColon s.data).length ≠ 2 →
      cvTermInfoByString obos s st = Except.error LookupError.formatError) ∧
    (splitOnColon s.data = [pre, num] →
      (oboPfxs_ obos).findIdx? (fun q => q.data = pre) = some i →
      (cvTermInfoByString obos s st = Except.error LookupError.conversionError ↔
        (strtoul10 num).converted = false ∨ (strtoul10 num).rangeError = true)) ∧
    (splitOnColon s.data = [pre, num] →
      (oboPfxs_ obos).findIdx? (fun q => q.data = pre) = some i →
      (strtoul10 num).converted = true → (strtoul10 num).rangeError = false →
      isOkB (cvTermInfoByString obos s st) = true) := by
  refine ⟨?_, ?_, ?_⟩
  · intro hlen
    rcases hsp : splitOnColon s.data with _ | ⟨a, _ | ⟨b, _ | ⟨d, tl⟩⟩⟩
    · simp [cvTermInfoByString, hsp]
    · simp [cvTermInfoByString, hsp]
    · rw [hsp] at hlen; simp at hlen
    · simp [cvTermInfoByString, hsp]
  · intro hs hfind
    constructor
    · intro herr
      cases hc : (strtoul10 num).converted with
      | false => exact Or.inl rfl
      | true =>
        cases hr : (strtoul10 num).rangeError with
        | true => exact Or.inr rfl
        | false =>
          simp [cvTermInfoByString, hs, hfind, stringToCVID_ok num hc hr] at herr
    · intro h
      rcases h with h | h
      · have hz : stringToCVID (String.mk num) = Except.error () := by
          simp [stringToCVID, strtoul10_not_converted num h]
        simp [cvTermInfoByString, hs, hfind, hz]
      · have hz : stringToCVID (String.mk num) = Except.error () := by
          simp [stringToCVID, h]
        simp [cvTermInfoByString, hs, hfind, hz]
  · intro hs hfind hc hr
    simp [cvTermInfoByString, hs, hfind, stringToCVID_ok num hc hr, isOkB]

/-- Witness for C4 amended on the fixture: a colon-free input raises the
format error, "MS:notanumber" is characterized by the conversion-error
equivalence, and "MS:0000001abc" (non-overflowing digit run plus junk)
succeeds. -/
theorem claim_C4_amended_witness :
    cvTermInfoByString testObos "nocolon" testSt = Except.error LookupError.formatError ∧
    (cvTermInfoByString testObos "MS:notanumber" testSt =
        Except.error LookupError.conversionError ↔
      (strtoul10 ("notanumber").data).converted = false ∨
        (strtoul10 ("notanumber").data).rangeError = true) ∧
    isOkB (cvTermInfoByString testObos "MS:0000001abc" testSt) = true :=
  ⟨(claim_C4_amended testObos testSt "nocolon" [] [] 0).1 (by decide),
    (claim_C4_amended testObos testSt "MS:notanumber" ("MS").data ("notanumber").data 0).2.1
      (by decide) (by decide),
    (claim_C4_amended testObos testSt "MS:0000001abc" ("MS").data ("0000001abc").data 0).2.2
      (by decide) (by decide) (by decide) (by decide)⟩

/-- C5 counterexample: "MS:99999999999999999999" has a loaded prefix and a
numeric portion overflowing the strtoul range, and the lookup fails with
the conversion error instead of returning the unknown sentinel's detail
record. -/
theorem claim_C5_counterexample :
    cvTermInfoByString testObos "MS:99999999999999999999" testSt =
      Except.error LookupError.conversionError := by
  decide

/-- C5 amended: when the prefix names a loaded namespace and the numeric
portion overflows the unsigned range of strtoul (errno set to ERANGE), the
string-accession lookup fails with a conversion error — the same hard
failure as non-numeric content — rather than returning the "unknown"
sentinel's record.  (Values that fit in unsigned long but exceed unsigned
int are instead silently truncated by the cast and looked up as ordinary
codes.) -/
theorem claim_C5_amended (obos : List OBO) (st : CVState) (s : String)
    (pre num : List Char) (i : Nat)
    (hs : splitOnColon s.data = [pre, num])
    (hfind : (oboPfxs_ obos).findIdx? (fun q => q.data = pre) = some i)
    (hrange : (strtoul10 num).rangeError = true) :
    cvTermInfoByString obos s st = Except.error LookupError.conversionError := by
  have hz : stringToCVID (String.mk num) = Except.error () := by
    simp [stringToCVID, hrange]
  simp [cvTermInfoByString, hs, hfind, hz]

/-- Witness for C5 amended at the concrete overflowing accession. -/
theorem claim_C5_amended_witness :
    cvTermInfoByString testObos "MS:99999999999999999999" testSt =
      Except.error LookupError.conversionError :=
  claim_C5_amended testObos testSt "MS:99999999999999999999"
    ("MS").data ("99999999999999999999").data 0 (by decide) (by decide) (by decide)

/-! Claim C6: content of the cvids() sequence. -/

/-- Helper: the first initialization loop appends exactly the cvid of each
`termInfos_` row, in row order, to the `cvids_` vector. -/
theorem initTermRows_cvids (rows : List TermInfoRow) (st : CVState) :
    (initTermRows rows st).cvids = st.cvids ++ rows.map TermInfoRow.cvid := by
  induction rows generalizing st with
  | nil => simp [initTermRows]
  | cons r rs ih =>
    have hstep : initTermRows (r :: rs) st = initTermRows rs
        { st with
          infoMap := mapSet st.infoMap r.cvid ⟨r.cvid, r.id, r.name, r.defn, [], [], []⟩,
          cvids := st.cvids ++ [r.cvid] } := rfl
    rw [hstep, ih]
    simp

/-- Helper: no later initialization step touches `cvids_`. -/
theorem buildMaps_cvids (obos : List OBO) (st : CVState) :
    (buildMaps obos st).cvids = st.cvids ++ (termInfos_ obos).map TermInfoRow.cvid := by
  simp [buildMaps, initTermRows_cvids]

/-- Helper: the cvid column of `termInfos_` is the sentinel followed by
every term's global code in generation order. -/
theorem termInfos_map_cvid (obos : List OBO) :
    (termInfos_ obos).map TermInfoRow.cvid = -1 :: allTermCodes obos := by
  simp only [termInfos_, allTermCodes, unknownRow, List.map_cons, List.map_flatMap,
    List.map_map]
  exact congrArg _ (congrArg _ (funext fun p => congrArg _ rfl))

/-- C6 counterexample: on the fixture the emitted sequence has the extra
leading CVID_Unknown entry, so it is not exactly the terms' codes. -/
theorem claim_C6_counterexample :
    (cvids testObos testSt).1 = [-1, 1, 2, 100000001] ∧
    (cvids testObos testSt).1 ≠ allTermCodes testObos := by
  decide

/-- C6 amended: `cvids()` returns the sentinel CVID_Unknown followed by
every term's global code, one entry per term, in generation order with
synonym aliases excluded — the sentinel is the one entry beyond the terms'
codes (the `cvids_` loop runs over all of `termInfos_`, whose first row is
the sentinel). -/
theorem claim_C6_amended (obos : List OBO) :
    (cvids obos initState).1 = -1 :: allTermCodes obos := by
  simp [cvids, ensureInit, initState, buildMaps_cvids, termInfos_map_cvid]

/-! Claim C7: which vocabularies contribute synonym data. -/

/-- Helper: indexed iteration over a split input list. -/
theorem withIdx_append (n : Nat) (l1 l2 : List OBO) :
    withIdx n (l1 ++ l2) = withIdx n l1 ++ withIdx (n + l1.length) l2 := by
  induction l1 generalizing n with
  | nil => simp [withIdx]
  | cons o l ih =>
    have h1 : withIdx n ((o :: l) ++ l2) = (n, o) :: withIdx (n + 1) (l ++ l2) := rfl
    have h2 : withIdx n (o :: l) = (n, o) :: withIdx (n + 1) l := rfl
    have h3 : n + (o :: l).length = n + 1 + l.length := by
      simp only [List.length_cons]; omega
    rw [h1, h2, ih, h3, List.cons_append]

/-- Helper: an indexed pair comes from a member of the list. -/
theorem withIdx_mem {p : Nat × OBO} :
    ∀ {n : Nat} {l : List OBO}, p ∈ withIdx n l → p.2 ∈ l := by
  intro n l
  induction l generalizing n with
  | nil => intro h; simp [withIdx] at h
  | cons o rest ih =>
    intro h
    simp only [withIdx, List.mem_cons] at h
    rcases h with h | h
    · rw [h]; exact List.mem_cons_self o rest
    · exact List.mem_cons_of_mem o (ih h)

/-- C7 counterexample: the UO term's exact synonym "sec" is emitted into
the `relationsExactSynonym_` pairs table although UO is not the primary
vocabulary (writeCpp applies no prefix filter to this table). -/
theorem claim_C7_counterexample :
    ((100000001 : Int), "sec") ∈ relationsExactSynonym_ testObos ∧
    uoOBO.pfx ≠ "MS" ∧ uoT1 ∈ uoOBO.terms ∧ "sec" ∈ uoT1.exactSynonyms ∧
    (100000001 : Int) = Int.ofNat (enumValue uoT1 1) ∧ testObos = [msOBO, uoOBO] := by
  decide

/-- C7 amended: the extra enumeration entries (synonym aliases) are
emitted for the primary "MS" vocabulary only — an input set without an MS
vocabulary yields no alias enumerators, while every synonym of an MS term
yields one — but the code → synonym-string pairs table receives one entry
for every exact synonym of every loaded vocabulary, with no prefix
filter. -/
theorem claim_C7_amended (obos obos1 obos2 : List OBO) (o : OBO) (t : Term) (s : String) :
    ((∀ q ∈ obos, q.pfx ≠ "MS") → ∀ e ∈ genEnumEntries obos, e.isSynonym = false) ∧
    (t ∈ o.terms → s ∈ t.exactSynonyms →
      (Int.ofNat (enumValue t obos1.length), s) ∈
        relationsExactSynonym_ (obos1 ++ o :: obos2)) ∧
    (o.pfx = "MS" → t ∈ o.terms → s ∈ t.exactSynonyms →
      (⟨enumNameOf t.pfx s, Int.ofNat (enumValue t obos1.length), true⟩ : EnumEntry) ∈
        genEnumEntries (obos1 ++ o :: obos2)) := by
  refine ⟨?_, ?_, ?_⟩
  · intro hno e he
    simp only [genEnumEntries, List.mem_cons] at he
    rcases he with he | he
    · rw [he]
    · rcases List.mem_flatMap.mp he with ⟨p, hp, hin⟩
      rcases List.mem_flatMap.mp hin with ⟨u, _, hin2⟩
      rw [if_neg (hno p.2 (withIdx_mem hp))] at hin2
      simp only [List.mem_cons, List.not_mem_nil, or_false] at hin2
      rw [hin2]
  · intro ht hs
    simp only [relationsExactSynonym_, withIdx_append, Nat.zero_add, withIdx,
      List.flatMap_append, List.flatMap_cons, List.mem_cons, List.mem_append]
    exact Or.inr (Or.inr (Or.inl
      (List.mem_flatMap.mpr ⟨t, ht, List.mem_map_of_mem _ hs⟩)))
  · intro hms ht hs
    simp only [genEnumEntries, withIdx_append, Nat.zero_add, withIdx,
      List.flatMap_append, List.flatMap_cons, List.mem_cons, List.mem_append]
    refine Or.inr (Or.inr (Or.inl (List.mem_flatMap.mpr ⟨t, ht, ?_⟩)))
    rw [if_pos hms]
    exact List.mem_cons_of_mem _ (List.mem_map_of_mem _ hs)

/-- Witness for C7 amended on concrete inputs: a UO-only input set has no
alias enumerators, the fixture's UO synonym lands in the pairs table, and
the fixture's MS synonym yields an alias enumerator. -/
theorem claim_C7_amended_witness :
    (∀ e ∈ genEnumEntries [uoOBO], e.isSynonym = false) ∧
    ((Int.ofNat (enumValue uoT1 1), "sec") ∈ relationsExactSynonym_ ([msOBO] ++ uoOBO :: []) ∧
      (⟨enumNameOf msT1.pfx "spec one", Int.ofNat (enumValue msT1 0), true⟩ : EnumEntry) ∈
        genEnumEntries ([] ++ msOBO :: [uoOBO])) :=
  ⟨(claim_C7_amended [uoOBO] [] [] uoOBO uoT1 "sec").1 (by decide),
    (claim_C7_amended [uoOBO] [msOBO] [] uoOBO uoT1 "sec").2.1 (by decide) (by decide),
    (claim_C7_amended [] [] [uoOBO] msOBO msT1 "spec one").2.2 (by decide) (by decide)
      (by decide)⟩

/-! Claim C8: initialization-once and post-initialization mutation. -/

/-- C8 counterexample: on the initialized fixture state the tag "ZZ" is
absent from the CV map, and a single `cv("ZZ")` call inserts a
default-constructed record for it — the accessor mutates the map on an
unknown argument. -/
theorem claim_C8_counterexample :
    mapFind testSt.cvMap "ZZ" = none ∧
    mapFind ((cv testObos "ZZ" testSt).2).cvMap "ZZ" = some defaultCV ∧
    (cv testObos "ZZ" testSt).2 ≠ testSt := by
  decide

/-- C8 amended: the maps are built once — the guard leaves an initialized
state untouched and initialization raises the flag — and accessor calls
whose argument is already a key of the relevant map leave the state
unchanged (`cvids()` never changes the post-guard state at all); but a
lookup with an unknown prefix or unrecognized code appends a
default-constructed entry under the queried key to the corresponding map
(std::map::operator[] insertion), mutating it. -/
theorem claim_C8_amended (obos : List OBO) (st : CVState) (p : String) (c : Int) :
    (st.initialized = true → ensureInit obos st = st) ∧
    (buildMaps obos st).initialized = true ∧
    (st.initialized = true → mapFind st.cvMap p ≠ none → (cv obos p st).2 = st) ∧
    (st.initialized = true → mapFind st.infoMap c ≠ none →
      (cvTermInfoByCVID obos c st).2 = st) ∧
    (cvids obos st).2 = ensureInit obos st ∧
    (st.initialized = true → mapFind st.cvMap p = none →
      (cv obos p st).2.cvMap = st.cvMap ++ [(p, defaultCV)]) ∧
    (st.initialized = true → mapFind st.infoMap c = none →
      (cvTermInfoByCVID obos c st).2.infoMap = st.infoMap ++ [(c, defaultTermInfo)]) := by
  have hens : st.initialized = true → ensureInit obos st = st := by
    intro h; simp [ensureInit, h]
  refine ⟨hens, ?_, ?_, ?_, ?_, ?_, ?_⟩
  · simp [buildMaps]
  · intro h hf
    rcases hv : mapFind st.cvMap p with _ | v
    · exact absurd hv hf
    · simp [cv, hens h, mapGetOrInsert, hv]
  · intro h hf
    rcases hv : mapFind st.infoMap c with _ | v
    · exact absurd hv hf
    · simp [cvTermInfoByCVID, hens h, mapGetOrInsert, hv]
  · rfl
  · intro h hf
    simp [cv, hens h, mapGetOrInsert, hf]
  · intro h hf
    simp [cvTermInfoByCVID, hens h, mapGetOrInsert, hf]

/-- Witness for C8 amended on the fixture: known-key calls leave the state
unchanged and an unknown-key call appends exactly the default entry. -/
theorem claim_C8_amended_witness :
    (cv testObos "MS" testSt).2 = testSt ∧
    (cvTermInfoByCVID testObos (-1) testSt).2 = testSt ∧
    (cv testObos "QQ" testSt).2.cvMap = testSt.cvMap ++ [("QQ", defaultCV)] :=
  ⟨(claim_C8_amended testObos testSt "MS" (-1)).2.2.1 (by decide) (by decide),
    (claim_C8_amended testObos testSt "MS" (-1)).2.2.2.1 (by decide) (by decide),
    (claim_C8_amended testObos testSt "QQ" (-1)).2.2.2.2.2.1 (by decide) (by decide)⟩

/-! Claim C9: version extraction from header lines. -/

/-- Helper: a version-regex capture is nonempty (`(\S+)` matches at least
one character). -/
theorem vMatchAt_ne_nil : ∀ (l b : List Char), vMatchAt l = some b → b ≠ [] := by
  intro l
  induction l with
  | nil => intro b h; simp [vMatchAt] at h
  | cons c rest ih =>
    intro b h
    simp only [vMatchAt] at h
    split at h
    · rename_i hcond
      injection h with h'
      rw [← h']
      exact hcond.2.2.1
    · split at h
      · exact absurd h (by simp)
      · exact ih b h

/-- Helper: a successful version match yields a nonempty capture string. -/
theorem versionMatch_ne_empty {line v : String} (h : versionMatch line = some v) : v ≠ "" := by
  simp only [versionMatch, Option.map_eq_some'] at h
  rcases h with ⟨b, hb, hv⟩
  have hne := vMatchAt_ne_nil line.data b hb
  intro hc
  rw [← hv] at hc
  rw [String.ext_iff] at hc
  simp at hc
  exact hne hc

/-- Helper: a successful date match yields a nonempty capture string. -/
theorem dateMatch_ne_empty {line v : String} (h : dateMatch line = some v) : v ≠ "" := by
  simp only [dateMatch] at h
  split at h
  case isTrue =>
    split at h
    case isTrue => exact absurd h (by simp)
    case isFalse hw =>
      split at h
      case isTrue =>
        injection h with h'
        intro hc
        apply hw
        rw [hc] at h'
        have hdata := congrArg String.data h'
        simpa using hdata
      case isFalse => exact absurd h (by simp)
  case isFalse => exact absurd h (by simp)

/-- Helper: the first line matching the version regex wins, whatever the
accumulated date value. -/
theorem versionLoop_first_version :
    ∀ (pre : List String) (post : List String) (line v acc : String),
      (∀ l ∈ pre, versionMatch l = none) → versionMatch line = some v →
      versionLoop (pre ++ line :: post) acc = v := by
  intro pre
  induction pre with
  | nil =>
    intro post line v acc _ hv
    simp [versionLoop, hv]
  | cons p ps ih =>
    intro post line v acc hall hv
    have hp : versionMatch p = none := hall p (List.mem_cons_self p ps)
    have hall' : ∀ l ∈ ps, versionMatch l = none := fun l hl =>
      hall l (List.mem_cons_of_mem p hl)
    simp only [List.cons_append, versionLoop, hp]
    by_cases hacc : acc = ""
    · rw [if_pos hacc]
      cases hd : dateMatch p with
      | none => exact ih post line v acc hall' hv
      | some w => exact ih post line v w hall' hv
    · rw [if_neg hacc]
      exact ih post line v acc hall' hv

/-- Helper: with no version match anywhere, a nonempty accumulated value
survives to the end of the loop. -/
theorem versionLoop_no_match :
    ∀ (ls : List String) (acc : String),
      (∀ l ∈ ls, versionMatch l = none) → acc ≠ "" → versionLoop ls acc = acc := by
  intro ls
  induction ls with
  | nil => intro acc _ _; rfl
  | cons p ps ih =>
    intro acc hall hacc
    have hp : versionMatch p = none := hall p (List.mem_cons_self p ps)
    simp only [versionLoop, hp]
    rw [if_neg hacc]
    exact ih acc (fun l hl => hall l (List.mem_cons_of_mem p hl)) hacc

/-- Helper: with no version match anywhere, the first date match supplies
the loop's result. -/
theorem versionLoop_first_date :
    ∀ (pre : List String) (post : List String) (line v : String),
      (∀ l ∈ pre ++ line :: post, versionMatch l = none) →
      (∀ l ∈ pre, dateMatch l = none) → dateMatch line = some v →
      versionLoop (pre ++ line :: post) "" = v := by
  intro pre
  induction pre with
  | nil =>
    intro post line v hallv _ hd
    have hline : versionMatch line = none := hallv line (by simp)
    have hpost : ∀ l ∈ post, versionMatch l = none := fun l hl => hallv l (by simp [hl])
    simp only [List.nil_append, versionLoop, hline, if_true, hd]
    exact versionLoop_no_match post v hpost (dateMatch_ne_empty hd)
  | cons p ps ih =>
    intro post line v hallv halld hd
    have hp : versionMatch p = none := hallv p (by simp)
    have hpd : dateMatch p = none := halld p (List.mem_cons_self p ps)
    simp only [List.cons_append, versionLoop, hp, if_true, hpd]
    exact ih post line v (fun l hl => hallv l (by simp [List.mem_cons_of_mem, hl]))
      (fun l hl => halld l (List.mem_cons_of_mem p hl)) hd

/-- Helper: with neither regex matching any line, the loop returns the
empty accumulator. -/
theorem versionLoop_none :
    ∀ ls : List String,
      (∀ l ∈ ls, versionMatch l = none ∧ dateMatch l = none) → versionLoop ls "" = "" := by
  intro ls
  induction ls with
  | nil => intro _; rfl
  | cons p ps ih =>
    intro hall
    have hp := hall p (List.mem_cons_self p ps)
    simp only [versionLoop, hp.1, if_true, hp.2]
    exact ih fun l hl => hall l (List.mem_cons_of_mem p hl)

/-- C9: the emitted version string is extracted from the header lines in
their original order — the first line matching the version-field regex
wins regardless of earlier date matches; when no line matches it, the
first line matching the date-field regex supplies the version (the first
whitespace-delimited token of the field value); when neither matches any
line, the version is the literal "unknown".  In particular a header of
`format-version: 1.2` and `date: 01:01:2020 00:00` with no
`version:`-matching line resolves to "01:01:2020". -/
theorem claim_C9 :
    (∀ (pre post : List String) (line v : String),
      (∀ l ∈ pre, versionMatch l = none) → versionMatch line = some v →
      extractVersion (pre ++ line :: post) = v) ∧
    (∀ (pre post : List String) (line v : String),
      (∀ l ∈ pre ++ line :: post, versionMatch l = none) →
      (∀ l ∈ pre, dateMatch l = none) → dateMatch line = some v →
      extractVersion (pre ++ line :: post) = v) ∧
    (∀ hs : List String,
      (∀ l ∈ hs, versionMatch l = none ∧ dateMatch l = none) →
      extractVersion hs = "unknown") ∧
    extractVersion ["format-version: 1.2", "date: 01:01:2020 00:00"] = "01:01:2020" := by
  refine ⟨?_, ?_, ?_, by decide⟩
  · intro pre post line v hall hv
    have h1 := versionLoop_first_version pre post line v "" hall hv
    simp [extractVersion, h1, versionMatch_ne_empty hv]
  · intro pre post line v hallv halld hd
    have h1 := versionLoop_first_date pre post line v hallv halld hd
    simp [extractVersion, h1, dateMatch_ne_empty hd]
  · intro hs hall
    simp [extractVersion, versionLoop_none hs hall]

/-- Witness for C9 at concrete headers: a matching version line wins, a
date line is used as fallback, and an unmatched header yields "unknown". -/
theorem claim_C9_witness :
    extractVersion ["x version: 9"] = "9" ∧
    extractVersion ["junk", "date: 2020-01-01 extra"] = "2020-01-01" ∧
    extractVersion ["junk"] = "unknown" :=
  ⟨claim_C9.1 [] [] "x version: 9" "9" (by simp) (by decide),
    claim_C9.2.1 ["junk"] [] "date: 2020-01-01 extra" "2020-01-01" (by decide) (by decide)
      (by decide),
    claim_C9.2.2.1 ["junk"] (by decide)⟩

/-! Claim C10: escape doubling in emitted string literals. -/

/-- Helper: a two-character pattern matching as a prefix pins down the
first two characters. -/
theorem pair_isPrefixOf {a b c : Char} {rest : List Char}
    (h : [a, b].isPrefixOf (c :: rest) = true) : ∃ r, c :: rest = a :: b :: r := by
  cases rest with
  | nil => simp [List.isPrefixOf] at h
  | cons b2 r =>
    simp [List.isPrefixOf] at h
    exact ⟨r, by rw [h.1, h.2]⟩

/-- Helper: replace_all leaves a string without any occurrence of the
two-character pattern unchanged (fuel-indexed form). -/
theorem replaceAllAux_pair_id (a b : Char) (repl : List Char) :
    ∀ (fuel : Nat) (s : List Char), s.length ≤ fuel →
      (∀ l r : List Char, s ≠ l ++ a :: b :: r) →
      replaceAllAux [a, b] repl fuel s = s := by
  intro fuel
  induction fuel with
  | zero => intro s _ _; rfl
  | succ f ih =>
    intro s hs hno
    cases s with
    | nil => rfl
    | cons c rest =>
      have hcond : ¬([a, b] ≠ [] ∧ [a, b].isPrefixOf (c :: rest) = true) := by
        rintro ⟨-, hpre⟩
        rcases pair_isPrefixOf hpre with ⟨r, hr⟩
        exact hno [] r hr
      simp only [replaceAllAux, if_neg hcond]
      have hrest : ∀ l r : List Char, rest ≠ l ++ a :: b :: r := by
        intro l r hr
        exact hno (c :: l) r (by rw [hr]; rfl)
      rw [ih rest (by simpa using Nat.le_of_succ_le_succ (by simpa using hs)) hrest]

/-- Helper: replace_all on a string with exactly one pattern occurrence
(no `a` anywhere before it, no occurrence after it) rewrites that
occurrence and nothing else. -/
theorem replaceAllAux_pair_single (a b : Char) (repl : List Char) :
    ∀ (l : List Char) (fuel : Nat) (r : List Char),
      l.length + 2 + r.length ≤ fuel → a ∉ l →
      (∀ x y : List Char, r ≠ x ++ a :: b :: y) →
      replaceAllAux [a, b] repl fuel (l ++ a :: b :: r) = l ++ repl ++ r := by
  intro l
  induction l with
  | nil =>
    intro fuel r hf _ hno
    cases fuel with
    | zero => omega
    | succ f =>
      have hpre : [a, b].isPrefixOf (a :: b :: r) = true := by
        simp [List.isPrefixOf]
      show replaceAllAux [a, b] repl (f + 1) (a :: b :: r) = [] ++ repl ++ r
      simp only [replaceAllAux, if_pos (And.intro (List.cons_ne_nil a [b]) hpre)]
      have hlen : r.length ≤ f := by
        simp only [List.length_nil] at hf; omega
      simp [replaceAllAux_pair_id a b repl f r hlen hno]
  | cons c l2 ih =>
    intro fuel r hf ha hno
    have hc : ¬(a == c) = true := by
      simp only [beq_iff_eq]
      intro h
      exact ha (by rw [h]; exact List.mem_cons_self c l2)
    cases fuel with
    | zero => simp at hf
    | succ f =>
      have hcond : ¬([a, b] ≠ [] ∧ [a, b].isPrefixOf (c :: (l2 ++ a :: b :: r)) = true) := by
        rintro ⟨-, hpre⟩
        simp only [List.isPrefixOf, Bool.and_eq_true] at hpre
        exact hc hpre.1
      show replaceAllAux [a, b] repl (f + 1) (c :: (l2 ++ a :: b :: r)) = (c :: l2) ++ repl ++ r
      simp only [replaceAllAux, if_neg hcond]
      have hf2 : l2.length + 2 + r.length ≤ f := by
        simp only [List.length_cons] at hf; omega
      rw [ih f r hf2 (fun h => ha (List.mem_cons_of_mem c h)) hno]
      rfl

/-- Helper: in `a ++ d :: x :: b` with no `d` inside `a` or `b` and
`x ≠ d`, any decomposition `l ++ d :: t` has `t = x :: b`. -/
theorem split_single (d x : Char) :
    ∀ (a l t b : List Char), d ∉ a → d ∉ b → x ≠ d →
      a ++ d :: x :: b = l ++ d :: t → t = x :: b := by
  intro a
  induction a with
  | nil =>
    intro l t b _ hb hx heq
    cases l with
    | nil =>
      simp only [List.nil_append] at heq
      injection heq with _ h2
      exact h2.symm
    | cons e l2 =>
      simp only [List.nil_append, List.cons_append] at heq
      injection heq with h1 h2
      have hdmem : d ∈ x :: b := by rw [h2]; simp
      simp only [List.mem_cons] at hdmem
      rcases hdmem with h | h
      · exact absurd h.symm hx
      · exact absurd h hb
  | cons e a2 ih =>
    intro l t b ha hb hx heq
    have hed : e ≠ d := fun h => ha (by rw [h]; exact List.mem_cons_self d a2)
    have ha2 : d ∉ a2 := fun h => ha (List.mem_cons_of_mem e h)
    cases l with
    | nil =>
      simp only [List.cons_append, List.nil_append] at heq
      injection heq with h1 _
      exact absurd h1 hed
    | cons f l2 =>
      simp only [List.cons_append] at heq
      injection heq with _ h2
      exact ih l2 t b ha2 hb hx h2

/-- Helper: in `a ++ d :: d :: x :: b` with no `d` inside `a` or `b` and
`x ≠ d`, any decomposition `l ++ d :: t` has `t = d :: x :: b` or
`t = x :: b`. -/
theorem split_double (d x : Char) :
    ∀ (a l t b : List Char), d ∉ a → d ∉ b → x ≠ d →
      a ++ d :: d :: x :: b = l ++ d :: t → t = d :: x :: b ∨ t = x :: b := by
  intro a
  induction a with
  | nil =>
    intro l t b _ hb hx heq
    cases l with
    | nil =>
      simp only [List.nil_append] at heq
      injection heq with _ h2
      exact Or.inl h2.symm
    | cons e l2 =>
      simp only [List.nil_append, List.cons_append] at heq
      injection heq with h1 h2
      cases l2 with
      | nil =>
        simp only [List.nil_append] at h2
        injection h2 with _ h3
        exact Or.inr h3.symm
      | cons f l3 =>
        simp only [List.cons_append] at h2
        injection h2 with h3 h4
        have hdmem : d ∈ x :: b := by rw [h4]; simp
        simp only [List.mem_cons] at hdmem
        rcases hdmem with h | h
        · exact absurd h.symm hx
        · exact absurd h hb
  | cons e a2 ih =>
    intro l t b ha hb hx heq
    have hed : e ≠ d := fun h => ha (by rw [h]; exact List.mem_cons_self d a2)
    have ha2 : d ∉ a2 := fun h => ha (List.mem_cons_of_mem e h)
    cases l with
    | nil =>
      simp only [List.cons_append, List.nil_append] at heq
      injection heq with h1 _
      exact absurd h1 hed
    | cons f l2 =>
      simp only [List.cons_append] at heq
      injection heq with _ h2
      exact ih l2 t b ha2 hb hx h2

/-- Helper: an escape pass for a character other than `x` leaves
`a ++ \ :: x :: b` unchanged. -/
theorem escapePair_skip_single (c x : Char) (a b : List Char)
    (ha : '\\' ∉ a) (hb : '\\' ∉ b) (hx : x ≠ '\\') (hcx : c ≠ x) :
    escapePair c (a ++ '\\' :: x :: b) = a ++ '\\' :: x :: b := by
  apply replaceAllAux_pair_id '\\' c _ _ _ (Nat.le_refl _)
  intro l r heq
  have ht := split_single '\\' x a l (c :: r) b ha hb hx heq
  injection ht with h1 _
  exact hcx h1

/-- Helper: the escape pass for `x` itself doubles the backslash of the
single occurrence of `\x`. -/
theorem escapePair_double (x : Char) (a b : List Char)
    (ha : '\\' ∉ a) (hb : '\\' ∉ b) :
    escapePair x (a ++ '\\' :: x :: b) = a ++ '\\' :: '\\' :: x :: b := by
  have hf : a.length + 2 + b.length ≤ (a ++ '\\' :: x :: b).length := by
    simp only [List.length_append, List.length_cons]; omega
  have hno : ∀ l r : List Char, b ≠ l ++ '\\' :: x :: r := by
    intro l r heq
    exact hb (by rw [heq]; simp)
  have hmain := replaceAllAux_pair_single '\\' x ['\\', '\\', x] a
    ((a ++ '\\' :: x :: b).length) b hf ha hno
  show replaceAllAux ['\\', x] ['\\', '\\', x] (a ++ '\\' :: x :: b).length
      (a ++ '\\' :: x :: b) = a ++ '\\' :: '\\' :: x :: b
  rw [hmain]
  simp

/-- Helper: a later escape pass (character distinct from both backslash
and `x`) leaves the doubled form `a ++ \ :: \ :: x :: b` unchanged. -/
theorem escapePair_skip_double (c x : Char) (a b : List Char)
    (ha : '\\' ∉ a) (hb : '\\' ∉ b) (hx : x ≠ '\\') (hcb : c ≠ '\\') (hcx : c ≠ x) :
    escapePair c (a ++ '\\' :: '\\' :: x :: b) = a ++ '\\' :: '\\' :: x :: b := by
  apply replaceAllAux_pair_id '\\' c _ _ _ (Nat.le_refl _)
  intro l r heq
  rcases split_double '\\' x a l (c :: r) b ha hb hx heq with ht | ht
  · injection ht with h1 _
    exact hcb h1
  · injection ht with h1 _
    exact hcx h1

/-- Helper: a run of escape passes for characters all distinct from `x`
leaves `a ++ \ :: x :: b` unchanged. -/
theorem escapeFold_skip_single (x : Char) (a b : List Char)
    (ha : '\\' ∉ a) (hb : '\\' ∉ b) (hx : x ≠ '\\') :
    ∀ cs : List Char, (∀ c ∈ cs, c ≠ x) →
      cs.foldl (fun acc c => escapePair c acc) (a ++ '\\' :: x :: b) =
        a ++ '\\' :: x :: b := by
  intro cs
  induction cs with
  | nil => intro _; rfl
  | cons c cs2 ih =>
    intro hall
    have hc := hall c (List.mem_cons_self c cs2)
    simp only [List.foldl_cons, escapePair_skip_single c x a b ha hb hx hc]
    exact ih fun q hq => hall q (List.mem_cons_of_mem c hq)

/-- Helper: a run of escape passes for characters distinct from backslash
and from `x` leaves the doubled form unchanged. -/
theorem escapeFold_skip_double (x : Char) (a b : List Char)
    (ha : '\\' ∉ a) (hb : '\\' ∉ b) (hx : x ≠ '\\') :
    ∀ cs : List Char, (∀ c ∈ cs, c ≠ '\\' ∧ c ≠ x) →
      cs.foldl (fun acc c => escapePair c acc) (a ++ '\\' :: '\\' :: x :: b) =
        a ++ '\\' :: '\\' :: x :: b := by
  intro cs
  induction cs with
  | nil => intro _; rfl
  | cons c cs2 ih =>
    intro hall
    have hc := hall c (List.mem_cons_self c cs2)
    simp only [List.foldl_cons, escapePair_skip_double c x a b ha hb hx hc.1 hc.2]
    exact ih fun q hq => hall q (List.mem_cons_of_mem c hq)

/-- Helper: the full escape chain, decomposed around the pass for `x`,
doubles the single `\x` occurrence. -/
theorem escapeFold_main (csL csR : List Char) (x : Char) (a b : List Char)
    (ha : '\\' ∉ a) (hb : '\\' ∉ b) (hx : x ≠ '\\')
    (hL : ∀ c ∈ csL, c ≠ x) (hR : ∀ c ∈ csR, c ≠ '\\' ∧ c ≠ x) :
    (csL ++ x :: csR).foldl (fun acc c => escapePair c acc) (a ++ '\\' :: x :: b) =
      a ++ '\\' :: '\\' :: x :: b := by
  rw [List.foldl_append, escapeFold_skip_single x a b ha hb hx csL hL,
    List.foldl_cons, escapePair_double x a b ha hb]
  exact escapeFold_skip_double x a b ha hb hx csR hR

/-- C10 counterexample: backslash-dot is a backslash-prefixed punctuation
sequence, yet escape_copy passes it through unchanged (only the nine
characters of escapeChars are handled). -/
theorem claim_C10_counterexample :
    isPunctChar '.' = true ∧
    escape_copy (String.mk ['\\', '.']) = String.mk ['\\', '.'] ∧
    String.mk ['\\', '.'] ≠ String.mk ['\\', '\\', '.'] := by
  decide

/-- C10 amended: the escape doubling applies to the nine OBO escape
characters handled by escape_copy (`! : , ( ) [ ] { }`) — for any of
those, a name or definition containing the two-character sequence
backslash-x, with no other backslash anywhere, is emitted with the
backslash doubled; other backslash-prefixed punctuation such as `\.`
passes through unchanged.  In particular `\:` is emitted as `\\:`. -/
theorem claim_C10_amended (x : Char) (a b : String) (hx : x ∈ escapeChars)
    (ha : '\\' ∉ a.data) (hb : '\\' ∉ b.data) :
    escape_copy (a ++ String.mk ['\\', x] ++ b) = a ++ String.mk ['\\', '\\', x] ++ b := by
  have hlhs : a ++ String.mk ['\\', x] ++ b = String.mk (a.data ++ '\\' :: x :: b.data) := by
    rcases a with ⟨d1⟩; rcases b with ⟨d2⟩
    show String.mk ((d1 ++ ['\\', x]) ++ d2) = String.mk (d1 ++ '\\' :: x :: d2)
    rw [List.append_assoc]
    rfl
  have hrhs : a ++ String.mk ['\\', '\\', x] ++ b =
      String.mk (a.data ++ '\\' :: '\\' :: x :: b.data) := by
    rcases a with ⟨d1⟩; rcases b with ⟨d2⟩
    show String.mk ((d1 ++ ['\\', '\\', x]) ++ d2) = String.mk (d1 ++ '\\' :: '\\' :: x :: d2)
    rw [List.append_assoc]
    rfl
  rw [hlhs, hrhs]
  simp only [escape_copy]
  show String.mk (escapeList (a.data ++ '\\' :: x :: b.data)) =
    String.mk (a.data ++ '\\' :: '\\' :: x :: b.data)
  apply congrArg String.mk
  simp only [escapeList]
  fin_cases hx
  · exact escapeFold_main [] [':', ',', '(', ')', '[', ']', '\x7b', '\x7d'] '!'
      a.data b.data ha hb (by decide) (by decide) (by decide)
  · exact escapeFold_main ['!'] [',', '(', ')', '[', ']', '\x7b', '\x7d'] ':'
      a.data b.data ha hb (by decide) (by decide) (by decide)
  · exact escapeFold_main ['!', ':'] ['(', ')', '[', ']', '\x7b', '\x7d'] ','
      a.data b.data ha hb (by decide) (by decide) (by decide)
  · exact escapeFold_main ['!', ':', ','] [')', '[', ']', '\x7b', '\x7d'] '('
      a.data b.data ha hb (by decide) (by decide) (by decide)
  · exact escapeFold_main ['!', ':', ',', '('] ['[', ']', '\x7b', '\x7d'] ')'
      a.data b.data ha hb (by decide) (by decide) (by decide)
  · exact escapeFold_main ['!', ':', ',', '(', ')'] [']', '\x7b', '\x7d'] '['
      a.data b.data ha hb (by decide) (by decide) (by decide)
  · exact escapeFold_main ['!', ':', ',', '(', ')', '['] ['\x7b', '\x7d'] ']'
      a.data b.data ha hb (by decide) (by decide) (by decide)
  · exact escapeFold_main ['!', ':', ',', '(', ')', '[', ']'] ['\x7d'] '\x7b'
      a.data b.data ha hb (by decide) (by decide) (by decide)
  · exact escapeFold_main ['!', ':', ',', '(', ')', '[', ']', '\x7b'] [] '\x7d'
      a.data b.data ha hb (by decide) (by decide) (by decide)

/-- Witness for C10 amended at a concrete definition string containing a
literal backslash-colon. -/
theorem claim_C10_amended_witness :
    escape_copy ("cleavage agent " ++ String.mk ['\\', ':'] ++ " regex") =
      "cleavage agent " ++ String.mk ['\\', '\\', ':'] ++ " regex" :=
  claim_C10_amended ':' "cleavage agent " " regex" (by decide) (by decide) (by decide)

end Cvgen
